import Mathlib

/-!
Verification of the matching/scoring engine of career-compass-nlp
(src/utils/aiProcessor.ts). Texts are modelled as lists of characters,
numbers as exact rationals (reals where a square root is involved).
-/

set_option maxRecDepth 4000

/-- Character class of the JavaScript regex word class: the ASCII ranges
a-z (97-122), A-Z (65-90), 0-9 (48-57) and the underscore. -/
def jsIsWordChar (c : Char) : Bool :=
  (97 ≤ c.toNat && c.toNat ≤ 122) || (65 ≤ c.toNat && c.toNat ≤ 90) ||
  (48 ≤ c.toNat && c.toNat ≤ 57) || c == '_'

/-- Characters matched by the JavaScript regex whitespace class
(ASCII whitespace plus the Unicode space separators). -/
def jsWhitespaceChars : List Char :=
  [' ', '\t', '\n', '\x0b', '\x0c', '\r', '\u00A0', '\u1680',
   '\u2000', '\u2001', '\u2002', '\u2003', '\u2004', '\u2005', '\u2006',
   '\u2007', '\u2008', '\u2009', '\u200A', '\u2028', '\u2029', '\u202F',
   '\u205F', '\u3000', '\uFEFF']

def jsIsSpace (c : Char) : Bool := jsWhitespaceChars.contains c

/-- String.prototype.toLowerCase, modelled on the basic latin range A-Z
(65-90): characters outside it are unchanged. Every non-ASCII character
is erased by the normalizer anyway, being outside the word class. -/
def jsToLower (c : Char) : Char :=
  if 65 ≤ c.toNat ∧ c.toNat ≤ 90 then Char.ofNat (c.toNat + 32) else c

/-- One character of the replacement pass: text.replace of every character
that is neither in the word class nor whitespace by a single space. -/
def replaceNonWord (c : Char) : Char :=
  if jsIsWordChar c || jsIsSpace c then c else ' '

/-- The whitespace-collapsing pass: text.replace of each maximal run of
whitespace by one space. The flag records whether the previous character
belonged to a whitespace run. -/
def collapseWsAux : Bool → List Char → List Char
  | _, [] => []
  | prevWs, c :: rest =>
    if jsIsSpace c then
      if prevWs then collapseWsAux true rest
      else ' ' :: collapseWsAux true rest
    else c :: collapseWsAux false rest

/-- Removal of trailing whitespace (the right half of String.prototype.trim). -/
def trimRight : List Char → List Char
  | [] => []
  | c :: rest =>
    let r := trimRight rest
    if r.isEmpty && jsIsSpace c then [] else c :: r

/-- String.prototype.trim: drop leading and trailing whitespace. -/
def jsTrim (l : List Char) : List Char := trimRight (l.dropWhile jsIsSpace)

/-- preprocessText from aiProcessor.ts: lower-case, replace every
non-word non-space character by a space, collapse whitespace runs to a
single space, trim. -/
def preprocessText (t : List Char) : List Char :=
  jsTrim (collapseWsAux false ((t.map jsToLower).map replaceNonWord))

/-- Substring containment, the model of String.prototype.includes:
true when pat occurs contiguously inside s. -/
def hasSubstr (pat : List Char) : List Char → Bool
  | [] => pat.isPrefixOf []
  | c :: rest => pat.isPrefixOf (c :: rest) || hasSubstr pat rest

/-- Deduplication keeping first occurrences, the model of the new Set
spread in extractSkills. -/
def jsNewSetAux (seen : List (List Char)) : List (List Char) → List (List Char)
  | [] => []
  | x :: rest =>
    if x ∈ seen then jsNewSetAux seen rest
    else x :: jsNewSetAux (x :: seen) rest

def jsNewSet (l : List (List Char)) : List (List Char) := jsNewSetAux [] l

/-- The commonSkills vocabulary literal of extractSkills, in source order. -/
def commonSkills : List (List Char) :=
  ["javascript".data, "python".data, "java".data, "typescript".data, "c++".data,
   "c#".data, "php".data, "ruby".data, "go".data, "rust".data,
   "swift".data, "kotlin".data, "scala".data, "r".data, "matlab".data,
   "sql".data, "html".data, "css".data,
   "react".data, "angular".data, "vue".data, "nodejs".data, "express".data,
   "django".data, "flask".data, "spring".data, "laravel".data,
   "rails".data, "nextjs".data, "nuxt".data, "svelte".data, "ember".data,
   "backbone".data, "jquery".data,
   "mysql".data, "postgresql".data, "mongodb".data, "redis".data,
   "elasticsearch".data, "sqlite".data, "oracle".data,
   "cassandra".data, "dynamodb".data, "firebase".data,
   "aws".data, "azure".data, "gcp".data, "docker".data, "kubernetes".data,
   "jenkins".data, "git".data, "github".data, "gitlab".data,
   "terraform".data, "ansible".data, "vagrant".data, "linux".data,
   "unix".data, "bash".data,
   "machine learning".data, "deep learning".data, "data science".data,
   "artificial intelligence".data,
   "tensorflow".data, "pytorch".data, "pandas".data, "numpy".data,
   "scikit-learn".data, "tableau".data, "powerbi".data,
   "leadership".data, "communication".data, "teamwork".data,
   "problem solving".data, "project management".data,
   "agile".data, "scrum".data, "kanban".data,
   "analytical thinking".data, "creativity".data]

/-- extractSkills from aiProcessor.ts: preprocess the text, keep the
vocabulary entries contained in it, remove duplicates. -/
def extractSkills (text : List Char) : List (List Char) :=
  let preprocessedText := preprocessText text
  jsNewSet (commonSkills.filter
    (fun skill => hasSubstr (skill.map jsToLower) preprocessedText))

def matchedSkillsOf (resumeSkills jobSkills : List (List Char)) : List (List Char) :=
  resumeSkills.filter (fun skill =>
    jobSkills.any (fun jobSkill =>
      hasSubstr (skill.map jsToLower) (jobSkill.map jsToLower)))

/-- The missing-skill computation of analyzeResumeMatch: job skills
contained in no resume skill. -/
def missingSkillsOf (resumeSkills jobSkills : List (List Char)) : List (List Char) :=
  jobSkills.filter (fun skill =>
    !(resumeSkills.any (fun resumeSkill =>
      hasSubstr (skill.map jsToLower) (resumeSkill.map jsToLower))))

/-- Sum of squares of the entries of a vector, the quantity under the
square root in the magnitude computation of calculateCosineSimilarity. -/
def sumSquares {a : Type} [Mul a] [AddMonoid a] (v : List a) : a :=
  (v.map (fun x => x * x)).sum

/-- Dot product of two equal-length vectors, as the reduce in
calculateCosineSimilarity computes it. -/
def dotProductOf {a : Type} [Mul a] [AddMonoid a] (v w : List a) : a :=
  (List.zipWith (fun x y => x * y) v w).sum

/-- Math.sqrt restricted to the rationals: exact on perfect-square
rationals (the only values at which any theorem below inspects it),
and 0 elsewhere. -/
def ratSqrt (q : Rat) : Rat :=
  let n := Nat.sqrt q.num.toNat
  let d := Nat.sqrt q.den
  if 0 ≤ q.num && n * n == q.num.toNat && d * d == q.den then (n : Rat) / (d : Rat) else 0

/-- calculateCosineSimilarity from aiProcessor.ts over exact rationals.
The zero test on the two magnitudes is expressed on the sums of squares,
which vanish exactly when the square roots do. -/
def calculateCosineSimilarityRat (vecA vecB : List Rat) : Except String Rat :=
  if vecA.length ≠ vecB.length then .error "Vectors must have the same length"
  else
    let dotProduct := dotProductOf vecA vecB
    let sqA := sumSquares vecA
    let sqB := sumSquares vecB
    if sqA = 0 || sqB = 0 then .ok 0
    else .ok (dotProduct / (ratSqrt sqA * ratSqrt sqB))

open Classical in
/-- calculateCosineSimilarity from aiProcessor.ts over the reals, with
Math.sqrt modelled by the real square root: used to settle the claim
about the similarity engine itself. -/
noncomputable def calculateCosineSimilarity (vecA vecB : List Real) : Except String Real :=
  if vecA.length ≠ vecB.length then .error "Vectors must have the same length"
  else
    let dotProduct := dotProductOf vecA vecB
    let magnitudeA := Real.sqrt (sumSquares vecA)
    let magnitudeB := Real.sqrt (sumSquares vecB)
    if magnitudeA = 0 ∨ magnitudeB = 0 then .ok 0
    else .ok (dotProduct / (magnitudeA * magnitudeB))

/-- Math.round for the values arising here: floor of the value plus one
half (JavaScript rounds half toward positive infinity). -/
def jsRound (q : Rat) : Int := ⌊q + 1 / 2⌋

/-- The skills score of analyzeResumeMatch: percentage of job skills
matched, vacuously 100 without job skills. -/
def skillsScoreOf (matchedSkills jobSkills : List (List Char)) : Rat :=
  if jobSkills.length > 0 then
    ((matchedSkills.length : Rat) / (jobSkills.length : Rat)) * 100
  else 100

/-- The experience score of analyzeResumeMatch: semantic similarity
boosted by 1.2 and clamped at 100. -/
def experienceScoreOf (semanticSimilarity : Rat) : Rat :=
  min (semanticSimilarity * 120) 100

/-- The education score of analyzeResumeMatch: semantic similarity
scaled to 100. -/
def educationScoreOf (semanticSimilarity : Rat) : Rat :=
  semanticSimilarity * 100

/-- The overall score of analyzeResumeMatch: weighted average of the
unrounded section scores, rounded once. -/
def overallScoreOf (skills experience education keywords : Rat) : Int :=
  jsRound (skills * 0.4 + experience * 0.3 + education * 0.2 + keywords * 0.1)

/-- The recommendation list of analyzeResumeMatch, the four rules in
source order. -/
def recommendationsOf (missingSkills : List (List Char))
    (skillsScore semanticSimilarity : Rat) (overallScore : Int) : List (List Char) :=
  (if missingSkills.length > 0 then
    ["Add these missing skills to your resume: ".data ++
      List.intercalate ", ".data (missingSkills.take 5)]
   else []) ++
  (if skillsScore < 70 then
    ["Consider highlighting more relevant technical skills that match the job requirements.".data]
   else []) ++
  (if semanticSimilarity < 0.6 then
    ["Try to use more keywords and phrases from the job description in your resume.".data]
   else []) ++
  (if overallScore < 60 then
    ["Consider restructuring your resume to better align with the job requirements.".data]
   else [])

structure SectionScores where
  skills : Int
  experience : Int
  education : Int
  keywords : Int
  deriving DecidableEq, Repr

structure AnalysisResult where
  overallScore : Int
  sectionScores : SectionScores
  matchedSkills : List (List Char)
  missingSkills : List (List Char)
  recommendations : List (List Char)
  deriving DecidableEq, Repr

instance {e a : Type} [DecidableEq e] [DecidableEq a] : DecidableEq (Except e a) := fun x y =>
  match x, y with
  | .ok u, .ok v => if h : u = v then isTrue (by rw [h]) else isFalse (by simp [h])
  | .error u, .error v => if h : u = v then isTrue (by rw [h]) else isFalse (by simp [h])
  | .ok _, .error _ => isFalse (by simp)
  | .error _, .ok _ => isFalse (by simp)

/-- The analysis result assembled by the try block of analyzeResumeMatch
once the semantic similarity is known: skill extraction from both raw
texts, matched and missing skills, the four section scores, the overall
score and the recommendations, with the missing list capped at 10. -/
def analysisResultFor (resumeText jobDescriptionText : List Char)
    (semanticSimilarity : Rat) : AnalysisResult :=
  let resumeSkills := extractSkills resumeText
  let jobSkills := extractSkills jobDescriptionText
  let matchedSkills := matchedSkillsOf resumeSkills jobSkills
  let missingSkills := missingSkillsOf resumeSkills jobSkills
  let skillsScore := skillsScoreOf matchedSkills jobSkills
  let experienceScore := experienceScoreOf semanticSimilarity
  let educationScore := educationScoreOf semanticSimilarity
  let keywordsScore := skillsScore
  let overallScore := overallScoreOf skillsScore experienceScore educationScore keywordsScore
  { overallScore := overallScore
    sectionScores := {
      skills := jsRound skillsScore
      experience := jsRound experienceScore
      education := jsRound educationScore
      keywords := jsRound keywordsScore }
    matchedSkills := matchedSkills
    missingSkills := missingSkills.take 10
    recommendations :=
      recommendationsOf missingSkills skillsScore semanticSimilarity overallScore }

/-- The try block of analyzeResumeMatch: skills and scores as above, with
the two awaited embedding calls and the similarity computation run in
source order, the first error short-circuiting the rest. The embedding
backend (generateEmbeddings, a network-bound model call) enters as an
oracle function from preprocessed text to a vector or an error. -/
def analyzeCore (embed : List Char → Except String (List Rat))
    (resumeText jobDescriptionText : List Char) : Except String AnalysisResult :=
  match embed (preprocessText resumeText) with
  | .error e => .error e
  | .ok resumeEmbedding =>
    match embed (preprocessText jobDescriptionText) with
    | .error e => .error e
    | .ok jobEmbedding =>
      match calculateCosineSimilarityRat resumeEmbedding jobEmbedding with
      | .error e => .error e
      | .ok semanticSimilarity =>
        .ok (analysisResultFor resumeText jobDescriptionText semanticSimilarity)

/-- analyzeResumeMatch from aiProcessor.ts: the try block above, with
every escaping error caught and replaced by the single analysis-failed
error surfaced to the caller. -/
def analyzeResumeMatch (embed : List Char → Except String (List Rat))
    (resumeText jobDescriptionText : List Char) : Except String AnalysisResult :=
  match analyzeCore embed resumeText jobDescriptionText with
  | .ok res => .ok res
  | .error _ => .error "Analysis failed. Please try again."

/-- The console.error diagnostic of the catch clause of
analyzeResumeMatch, as the list of lines it logs. -/
def analysisLog (embed : List Char → Except String (List Rat))
    (resumeText jobDescriptionText : List Char) : List String :=
  match analyzeCore embed resumeText jobDescriptionText with
  | .ok _ => []
  | .error e => ["Error during analysis: " ++ e]


/-! The embedding backend of aiProcessor.ts: module-level mutable state
textEmbeddingModel / isModelLoading, mutated by initializeModels and read
by generateEmbeddings. JavaScript runs each synchronous segment uninterrupted,
so the execution of two overlapping embed calls is the deterministic
interleaving of segments at the single await point of initializeModels
(the pipeline call that loads the model). loadsStarted instruments the
state with the number of load sequences begun. -/

structure BackendState where
  textEmbeddingModel : Option Nat
  isModelLoading : Bool
  loadsStarted : Nat
  deriving DecidableEq, Repr

/-- The synchronous prefix of initializeModels: the early return when a
model is present or a load is in flight, otherwise the transition to
Loading as the model load begins. The Bool records whether this call
started a load. -/
def initializeModelsPhase1 (s : BackendState) : BackendState × Bool :=
  if s.textEmbeddingModel.isSome || s.isModelLoading then (s, false)
  else ({ textEmbeddingModel := s.textEmbeddingModel, isModelLoading := true,
          loadsStarted := s.loadsStarted + 1 }, true)

/-- The resumption of initializeModels after the awaited pipeline call
settles: on success the model is stored, on failure the error is only
logged; the finally clause clears isModelLoading either way. -/
def initializeModelsPhase2 (s : BackendState) (outcome : Option Nat) : BackendState :=
  { textEmbeddingModel := match outcome with | some m => some m | none => s.textEmbeddingModel
    isModelLoading := false
    loadsStarted := s.loadsStarted }

/-- The availability check of generateEmbeddings immediately after its
await of initializeModels: with no model loaded the call throws. -/
def embedAvailabilityCheck (s : BackendState) : Except String Unit :=
  match s.textEmbeddingModel with
  | none => .error "Text embedding model not available"
  | some _ => .ok ()

/-- Two embed calls overlapping at the await point of the first load,
from the uninitialized backend: caller A begins the load and suspends;
caller B runs initializeModels (which returns at once, the state being
Loading) and then its availability check; the load then settles with the
given outcome and A runs its availability check. Returned: the final
state, the result observed by A and the result observed by B. -/
def twoCallerRun (outcome : Option Nat) :
    BackendState × Except String Unit × Except String Unit :=
  let s0 : BackendState := { textEmbeddingModel := none, isModelLoading := false,
                             loadsStarted := 0 }
  let p1 := initializeModelsPhase1 s0
  let p2 := initializeModelsPhase1 p1.1
  let rB := embedAvailabilityCheck p2.1
  let s3 := initializeModelsPhase2 p2.1 outcome
  let rA := embedAvailabilityCheck s3
  (s3, rA, rB)

/-- Characters that survive the whole normalizer: lowercase-stable word
characters and the plain space. -/
def canonChar (c : Char) : Bool :=
  (jsIsWordChar c && (jsToLower c == c)) || c == ' '

/-- Characters present after lowering and non-word replacement:
lowercase-stable word characters or whitespace. -/
def preCanonChar (c : Char) : Bool :=
  (jsIsWordChar c && (jsToLower c == c)) || jsIsSpace c

def firstNotSpace : List Char → Bool
  | [] => true
  | c :: _ => !jsIsSpace c

def lastNotSpace : List Char → Bool
  | [] => true
  | [c] => !jsIsSpace c
  | _ :: c :: rest => lastNotSpace (c :: rest)

def noDoubleSpace : List Char → Bool
  | [] => true
  | [_] => true
  | a :: b :: rest => !(jsIsSpace a && jsIsSpace b) && noDoubleSpace (b :: rest)

/-- The constant embedding oracle returning the one-entry unit vector,
used to instantiate the orchestrator on concrete runs. -/
def constUnitEmbed : List Char → Except String (List Rat) := fun _ => .ok [1]

/-- A job text containing 16 vocabulary skills, none of which an empty
resume matches. -/
def skillListJobText : List Char :=
  "javascript python java typescript php ruby go rust swift kotlin scala matlab sql html css".data

def scenarioAResumeText : List Char := "Experienced Python and React developer".data

def scenarioAJobText : List Char := "Looking for Python, React, and AWS experience".data

/-! Character-level facts about the normalizer. -/

theorem jsIsSpace_iff_mem {c : Char} : jsIsSpace c = true ↔ c ∈ jsWhitespaceChars := by
  simp [jsIsSpace, List.contains, List.elem_iff]

theorem space_not_word {c : Char} (h : jsIsSpace c = true) : jsIsWordChar c = false := by
  rw [jsIsSpace_iff_mem] at h
  fin_cases h <;> decide

theorem toNat_ofNat_of_isValidChar {m : Nat} (h : m.isValidChar) :
    (Char.ofNat m).toNat = m := by
  rw [Char.ofNat, dif_pos h]
  simp [Char.ofNatAux, Char.toNat, UInt32.toNat]

theorem jsToLower_idem (c : Char) : jsToLower (jsToLower c) = jsToLower c := by
  unfold jsToLower
  by_cases h : 65 ≤ c.toNat ∧ c.toNat ≤ 90
  · have hv : (c.toNat + 32).isValidChar := Or.inl (by omega)
    rw [if_pos h, toNat_ofNat_of_isValidChar hv, if_neg (by omega)]
  · rw [if_neg h, if_neg h]

theorem preCanonChar_stage (c : Char) : preCanonChar (replaceNonWord (jsToLower c)) = true := by
  unfold replaceNonWord
  by_cases h : (jsIsWordChar (jsToLower c) || jsIsSpace (jsToLower c)) = true
  · rw [if_pos h]
    rcases Bool.or_eq_true_iff.1 h with hw | hs
    · simp [preCanonChar, hw, jsToLower_idem c]
    · simp [preCanonChar, hs]
  · rw [if_neg h]
    decide

theorem noDoubleSpace_cons_iff {a : Char} {l : List Char} :
    noDoubleSpace (a :: l) = true ↔
      noDoubleSpace l = true ∧ (jsIsSpace a = true → firstNotSpace l = true) := by
  cases l with
  | nil => simp [noDoubleSpace, firstNotSpace]
  | cons b rest =>
    cases ha : jsIsSpace a <;> cases hb : jsIsSpace b <;>
      simp [noDoubleSpace, firstNotSpace, ha, hb]

theorem mem_collapseWsAux {c : Char} (l : List Char) :
    ∀ b, c ∈ collapseWsAux b l → (c ∈ l ∧ jsIsSpace c = false) ∨ c = ' ' := by
  induction l with
  | nil => intro b h; simp [collapseWsAux] at h
  | cons a rest ih =>
    intro b h
    by_cases ha : jsIsSpace a = true
    · cases b with
      | true =>
        simp only [collapseWsAux, ha, if_true] at h
        rcases ih true h with ⟨h3, h4⟩ | h3
        · exact Or.inl ⟨List.mem_cons_of_mem _ h3, h4⟩
        · exact Or.inr h3
      | false =>
        simp only [collapseWsAux, ha, if_true, Bool.false_eq_true, if_false] at h
        rcases List.mem_cons.1 h with rfl | h2
        · right; rfl
        · rcases ih true h2 with ⟨h3, h4⟩ | h3
          · exact Or.inl ⟨List.mem_cons_of_mem _ h3, h4⟩
          · exact Or.inr h3
    · simp only [collapseWsAux, ha, if_false, Bool.false_eq_true] at h
      rcases List.mem_cons.1 h with rfl | h2
      · exact Or.inl ⟨List.mem_cons_self _ _, by simpa using ha⟩
      · rcases ih false h2 with ⟨h3, h4⟩ | h3
        · exact Or.inl ⟨List.mem_cons_of_mem _ h3, h4⟩
        · exact Or.inr h3

theorem firstNotSpace_collapse_true (l : List Char) :
    firstNotSpace (collapseWsAux true l) = true := by
  induction l with
  | nil => rfl
  | cons a rest ih =>
    by_cases ha : jsIsSpace a = true
    · simpa [collapseWsAux, ha] using ih
    · simp [collapseWsAux, ha, firstNotSpace]

theorem noDoubleSpace_collapse (l : List Char) :
    ∀ b, noDoubleSpace (collapseWsAux b l) = true := by
  induction l with
  | nil => intro b; rfl
  | cons a rest ih =>
    intro b
    by_cases ha : jsIsSpace a = true
    · cases b with
      | true => simpa [collapseWsAux, ha] using ih true
      | false =>
        simp only [collapseWsAux, ha, if_true, Bool.false_eq_true, if_false]
        exact noDoubleSpace_cons_iff.2 ⟨ih true, fun _ => firstNotSpace_collapse_true rest⟩
    · simp only [collapseWsAux, ha, if_false, Bool.false_eq_true]
      exact noDoubleSpace_cons_iff.2 ⟨ih false, fun hs => absurd hs (by simpa using ha)⟩

theorem canonChar_collapse {c : Char} (l : List Char)
    (hl : ∀ d ∈ l, preCanonChar d = true) :
    ∀ b, c ∈ collapseWsAux b l → canonChar c = true := by
  intro b h
  rcases mem_collapseWsAux l b h with ⟨h1, h2⟩ | h1
  · have := hl c h1
    unfold preCanonChar at this
    rcases Bool.or_eq_true_iff.1 this with hw | hs
    · unfold canonChar
      rw [hw]; rfl
    · rw [hs] at h2; cases h2
  · subst h1; decide

theorem mem_trimRight {c : Char} : ∀ l, c ∈ trimRight l → c ∈ l := by
  intro l
  induction l with
  | nil => intro h; simp [trimRight] at h
  | cons a rest ih =>
    intro h
    simp only [trimRight] at h
    by_cases hc : (trimRight rest).isEmpty && jsIsSpace a
    · rw [if_pos hc] at h; cases h
    · rw [if_neg hc] at h
      rcases List.mem_cons.1 h with rfl | h2
      · exact List.mem_cons_self _ _
      · exact List.mem_cons_of_mem _ (ih h2)

theorem trimRight_head (c : Char) (rest : List Char) :
    trimRight (c :: rest) = [] ∨ ∃ r, trimRight (c :: rest) = c :: r := by
  simp only [trimRight]
  by_cases hc : (trimRight rest).isEmpty && jsIsSpace c
  · rw [if_pos hc]; exact Or.inl rfl
  · rw [if_neg hc]; exact Or.inr ⟨trimRight rest, rfl⟩

theorem firstNotSpace_trimRight (l : List Char) (h : firstNotSpace l = true) :
    firstNotSpace (trimRight l) = true := by
  cases l with
  | nil => exact h
  | cons c rest =>
    rcases trimRight_head c rest with h1 | ⟨r, h1⟩ <;> rw [h1]
    · rfl
    · exact h

theorem noDoubleSpace_trimRight (l : List Char) (h : noDoubleSpace l = true) :
    noDoubleSpace (trimRight l) = true := by
  induction l with
  | nil => exact h
  | cons a rest ih =>
    rcases noDoubleSpace_cons_iff.1 h with ⟨h1, h2⟩
    simp only [trimRight]
    by_cases hc : (trimRight rest).isEmpty && jsIsSpace a
    · rw [if_pos hc]; rfl
    · rw [if_neg hc]
      exact noDoubleSpace_cons_iff.2
        ⟨ih h1, fun hs => firstNotSpace_trimRight rest (h2 hs)⟩

theorem lastNotSpace_cons {c x : Char} (r : List Char) :
    lastNotSpace (c :: x :: r) = lastNotSpace (x :: r) := rfl

theorem lastNotSpace_trimRight (l : List Char) : lastNotSpace (trimRight l) = true := by
  induction l with
  | nil => rfl
  | cons a rest ih =>
    simp only [trimRight]
    by_cases hc : (trimRight rest).isEmpty && jsIsSpace a
    · rw [if_pos hc]; rfl
    · rw [if_neg hc]
      cases htr : trimRight rest with
      | nil =>
        rw [htr] at hc
        simp only [List.isEmpty_nil, Bool.true_and] at hc
        have : jsIsSpace a = false := by
          cases h : jsIsSpace a
          · rfl
          · exact absurd h hc
        simp [lastNotSpace, this]
      | cons x r =>
        rw [lastNotSpace_cons]
        rw [htr] at ih
        exact ih

theorem mem_dropWhile {c : Char} {p : Char → Bool} :
    ∀ l, c ∈ List.dropWhile p l → c ∈ l := by
  intro l
  induction l with
  | nil => intro h; simp at h
  | cons a rest ih =>
    intro h
    by_cases ha : p a = true
    · simp only [List.dropWhile, ha, if_true] at h
      exact List.mem_cons_of_mem _ (ih h)
    · simp only [List.dropWhile, ha, if_false, Bool.false_eq_true] at h
      exact h

theorem firstNotSpace_dropWhile (l : List Char) :
    firstNotSpace (List.dropWhile jsIsSpace l) = true := by
  induction l with
  | nil => rfl
  | cons a rest ih =>
    by_cases ha : jsIsSpace a = true
    · simpa [List.dropWhile, ha] using ih
    · simp [List.dropWhile, ha, firstNotSpace]

theorem noDoubleSpace_dropWhile (l : List Char) (h : noDoubleSpace l = true) :
    noDoubleSpace (List.dropWhile jsIsSpace l) = true := by
  induction l with
  | nil => exact h
  | cons a rest ih =>
    rcases noDoubleSpace_cons_iff.1 h with ⟨h1, h2⟩
    by_cases ha : jsIsSpace a = true
    · simp only [List.dropWhile, ha, if_true]
      exact ih h1
    · simp only [List.dropWhile, ha, if_false, Bool.false_eq_true]
      exact h

theorem map_jsToLower_id {l : List Char} (h : ∀ c ∈ l, canonChar c = true) :
    l.map jsToLower = l := by
  induction l with
  | nil => rfl
  | cons a rest ih =>
    have ha := h a (List.mem_cons_self _ _)
    have hfix : jsToLower a = a := by
      rcases Bool.or_eq_true_iff.1 ha with hw | hs
      · have hw2 : jsIsWordChar a = true ∧ (jsToLower a == a) = true := by simpa using hw
        exact beq_iff_eq.1 hw2.2
      · rw [beq_iff_eq.1 hs]; decide
    simp only [List.map_cons, hfix, List.cons.injEq, true_and]
    exact ih (fun c hc => h c (List.mem_cons_of_mem _ hc))

theorem map_replaceNonWord_id {l : List Char} (h : ∀ c ∈ l, canonChar c = true) :
    l.map replaceNonWord = l := by
  induction l with
  | nil => rfl
  | cons a rest ih =>
    have ha := h a (List.mem_cons_self _ _)
    have hfix : replaceNonWord a = a := by
      unfold replaceNonWord
      rcases Bool.or_eq_true_iff.1 ha with hw | hs
      · have hw2 : jsIsWordChar a = true ∧ (jsToLower a == a) = true := by simpa using hw
        rw [if_pos (by simp [hw2.1])]
      · rw [beq_iff_eq.1 hs]; decide
    simp only [List.map_cons, hfix, List.cons.injEq, true_and]
    exact ih (fun c hc => h c (List.mem_cons_of_mem _ hc))

theorem canonChar_space_eq {c : Char} (hc : canonChar c = true)
    (hs : jsIsSpace c = true) : c = ' ' := by
  rcases Bool.or_eq_true_iff.1 hc with hw | hs2
  · have := space_not_word hs
    rw [this] at hw
    simp at hw
  · exact beq_iff_eq.1 hs2

theorem collapse_id {l : List Char} (hc : ∀ c ∈ l, canonChar c = true) :
    ∀ b, noDoubleSpace l = true → (b = true → firstNotSpace l = true) →
      collapseWsAux b l = l := by
  induction l with
  | nil => intro b _ _; rfl
  | cons a rest ih =>
    intro b h2 h3
    rcases noDoubleSpace_cons_iff.1 h2 with ⟨h21, h22⟩
    by_cases ha : jsIsSpace a = true
    · have ha' : a = ' ' := canonChar_space_eq (hc a (List.mem_cons_self _ _)) ha
      cases b with
      | true =>
        have := h3 rfl
        simp only [firstNotSpace, ha] at this
        simp at this
      | false =>
        simp only [collapseWsAux, ha, if_true, Bool.false_eq_true, if_false]
        rw [ha']
        have := ih (fun c hcm => hc c (List.mem_cons_of_mem _ hcm)) true h21
          (fun _ => h22 ha)
        rw [this]
    · simp only [collapseWsAux, ha, if_false, Bool.false_eq_true]
      have := ih (fun c hcm => hc c (List.mem_cons_of_mem _ hcm)) false h21
        (fun hfalse => absurd hfalse (by simp))
      rw [this]

theorem dropWhile_id {l : List Char} (h : firstNotSpace l = true) :
    List.dropWhile jsIsSpace l = l := by
  cases l with
  | nil => rfl
  | cons a rest =>
    unfold firstNotSpace at h
    simp only [Bool.not_eq_eq_eq_not, Bool.not_true] at h
    simp [List.dropWhile, h]

theorem trimRight_id {l : List Char} (h : lastNotSpace l = true) : trimRight l = l := by
  induction l with
  | nil => rfl
  | cons a rest ih =>
    cases rest with
    | nil =>
      unfold lastNotSpace at h
      simp only [Bool.not_eq_eq_eq_not, Bool.not_true] at h
      simp [trimRight, h]
    | cons x r =>
      rw [lastNotSpace_cons] at h
      have hr := ih h
      simp only [trimRight] at hr ⊢
      rw [hr]
      simp [List.isEmpty]

/-- Every character of normalizer output is a lowercase-stable word
character or a plain space. -/
theorem preprocess_canonChars (t : List Char) :
    ∀ c ∈ preprocessText t, canonChar c = true := by
  intro c hc
  unfold preprocessText jsTrim at hc
  have h1 := mem_dropWhile _ (mem_trimRight _ hc)
  refine canonChar_collapse _ ?_ false h1
  intro d hd
  rcases List.mem_map.1 hd with ⟨e, he, rfl⟩
  rcases List.mem_map.1 he with ⟨f, _, rfl⟩
  exact preCanonChar_stage f

theorem preprocess_noDouble (t : List Char) :
    noDoubleSpace (preprocessText t) = true :=
  noDoubleSpace_trimRight _ (noDoubleSpace_dropWhile _ (noDoubleSpace_collapse _ false))

theorem preprocess_first (t : List Char) :
    firstNotSpace (preprocessText t) = true :=
  firstNotSpace_trimRight _ (firstNotSpace_dropWhile _)

theorem preprocess_last (t : List Char) :
    lastNotSpace (preprocessText t) = true :=
  lastNotSpace_trimRight _

/-- A list already in canonical form is a fixed point of the normalizer. -/
theorem preprocess_fixpoint {l : List Char} (h1 : ∀ c ∈ l, canonChar c = true)
    (h2 : noDoubleSpace l = true) (h3 : firstNotSpace l = true)
    (h4 : lastNotSpace l = true) : preprocessText l = l := by
  unfold preprocessText jsTrim
  rw [map_jsToLower_id h1]
  rw [map_replaceNonWord_id h1]
  rw [collapse_id h1 false h2 (fun hfalse => absurd hfalse (by simp))]
  rw [dropWhile_id h3, trimRight_id h4]

/-! Substring containment and extraction facts. -/

theorem isPrefixOf_iff_append {p s : List Char} :
    p.isPrefixOf s = true ↔ ∃ t, s = p ++ t := by
  induction p generalizing s with
  | nil => simp [List.isPrefixOf]
  | cons a as ih =>
    cases s with
    | nil => simp [List.isPrefixOf]
    | cons b bs =>
      simp only [List.isPrefixOf, Bool.and_eq_true, beq_iff_eq, ih, List.cons_append,
        List.cons.injEq]
      constructor
      · rintro ⟨rfl, t, rfl⟩
        exact ⟨t, rfl, rfl⟩
      · rintro ⟨t, rfl, rfl⟩
        exact ⟨rfl, t, rfl⟩

theorem hasSubstr_iff_parts {p s : List Char} :
    hasSubstr p s = true ↔ ∃ u v, s = u ++ p ++ v := by
  induction s with
  | nil =>
    simp only [hasSubstr, isPrefixOf_iff_append]
    constructor
    · rintro ⟨t, ht⟩
      exact ⟨[], t, by simpa using ht⟩
    · rintro ⟨u, v, huv⟩
      rcases List.append_eq_nil.1 (List.append_eq_nil.1 huv.symm).1 with ⟨rfl, rfl⟩
      exact ⟨v, by simpa using huv⟩
  | cons c rest ih =>
    simp only [hasSubstr, Bool.or_eq_true, isPrefixOf_iff_append, ih]
    constructor
    · rintro (⟨t, ht⟩ | ⟨u, v, huv⟩)
      · exact ⟨[], t, by simpa using ht⟩
      · exact ⟨c :: u, v, by simp [huv]⟩
    · rintro ⟨u, v, huv⟩
      cases u with
      | nil => exact Or.inl ⟨v, by simpa using huv⟩
      | cons d u2 =>
        simp only [List.cons_append, List.cons.injEq] at huv
        exact Or.inr ⟨u2, v, huv.2⟩

theorem hasSubstr_self (p : List Char) : hasSubstr p p = true :=
  hasSubstr_iff_parts.2 ⟨[], [], by simp⟩

theorem hasSubstr_trans {a b c : List Char} (h1 : hasSubstr a b = true)
    (h2 : hasSubstr b c = true) : hasSubstr a c = true := by
  rcases hasSubstr_iff_parts.1 h1 with ⟨u1, v1, rfl⟩
  rcases hasSubstr_iff_parts.1 h2 with ⟨u2, v2, rfl⟩
  exact hasSubstr_iff_parts.2 ⟨u2 ++ u1, v1 ++ v2, by simp⟩

theorem mem_of_hasSubstr {p s : List Char} (h : hasSubstr p s = true) {c : Char}
    (hc : c ∈ p) : c ∈ s := by
  rcases hasSubstr_iff_parts.1 h with ⟨u, v, rfl⟩
  simp [hc]

theorem mem_jsNewSetAux {a : List Char} :
    ∀ (l seen : List (List Char)), a ∈ jsNewSetAux seen l ↔ a ∈ l ∧ a ∉ seen := by
  intro l
  induction l with
  | nil => intro seen; simp [jsNewSetAux]
  | cons x rest ih =>
    intro seen
    by_cases hx : x ∈ seen
    · simp only [jsNewSetAux, if_pos hx, ih]
      constructor
      · rintro ⟨h1, h2⟩
        exact ⟨List.mem_cons_of_mem _ h1, h2⟩
      · rintro ⟨h1, h2⟩
        rcases List.mem_cons.1 h1 with rfl | h3
        · exact absurd hx h2
        · exact ⟨h3, h2⟩
    · simp only [jsNewSetAux, if_neg hx, List.mem_cons, ih, List.mem_cons, not_or]
      constructor
      · rintro (rfl | ⟨h1, h2, h3⟩)
        · exact ⟨Or.inl rfl, hx⟩
        · exact ⟨Or.inr h1, h3⟩
      · rintro ⟨rfl | h1, h2⟩
        · exact Or.inl rfl
        · by_cases hax : a = x
          · exact Or.inl hax
          · exact Or.inr ⟨h1, hax, h2⟩

theorem mem_jsNewSet {a : List Char} {l : List (List Char)} :
    a ∈ jsNewSet l ↔ a ∈ l := by
  rw [jsNewSet, mem_jsNewSetAux]
  simp

theorem jsNewSetAux_sublist : ∀ (l seen : List (List Char)),
    (jsNewSetAux seen l).Sublist l := by
  intro l
  induction l with
  | nil => intro seen; simp [jsNewSetAux]
  | cons x rest ih =>
    intro seen
    by_cases hx : x ∈ seen
    · rw [jsNewSetAux, if_pos hx]
      exact (ih seen).cons x
    · rw [jsNewSetAux, if_neg hx]
      exact (ih (x :: seen)).cons₂ x

theorem extractSkills_sublist (t : List Char) :
    (extractSkills t).Sublist commonSkills :=
  (jsNewSetAux_sublist _ _).trans (List.filter_sublist _)

theorem commonSkills_nodup : commonSkills.Nodup := by decide

theorem extractSkills_nodup (t : List Char) : (extractSkills t).Nodup :=
  (extractSkills_sublist t).nodup commonSkills_nodup

theorem mem_extractSkills {sk : List Char} {t : List Char} :
    sk ∈ extractSkills t ↔
      sk ∈ commonSkills ∧ hasSubstr (sk.map jsToLower) (preprocessText t) = true := by
  rw [extractSkills, mem_jsNewSet, List.mem_filter]

theorem mem_matchedSkillsOf {s : List Char} {rs js : List (List Char)} :
    s ∈ matchedSkillsOf rs js ↔
      s ∈ rs ∧ ∃ j ∈ js, hasSubstr (s.map jsToLower) (j.map jsToLower) = true := by
  simp [matchedSkillsOf, List.mem_filter, List.any_eq_true]

theorem mem_missingSkillsOf {s : List Char} {rs js : List (List Char)} :
    s ∈ missingSkillsOf rs js ↔
      s ∈ js ∧ ∀ r ∈ rs, ¬ hasSubstr (s.map jsToLower) (r.map jsToLower) = true := by
  simp [missingSkillsOf, List.mem_filter, List.any_eq_true]

/-- A skill matched against the job skills extracted from a text is
itself among those job skills: it is in the vocabulary and is contained
in the preprocessed job text through the job skill containing it. -/
theorem matched_mem_jobSkills (resumeText jobText : List Char) :
    ∀ s ∈ matchedSkillsOf (extractSkills resumeText) (extractSkills jobText),
      s ∈ extractSkills jobText := by
  intro s hs
  rcases mem_matchedSkillsOf.1 hs with ⟨hrs, j, hj, hsub⟩
  rcases mem_extractSkills.1 hj with ⟨_, hjsub⟩
  exact mem_extractSkills.2 ⟨(mem_extractSkills.1 hrs).1, hasSubstr_trans hsub hjsub⟩

theorem matched_length_le (resumeText jobText : List Char) :
    (matchedSkillsOf (extractSkills resumeText) (extractSkills jobText)).length ≤
      (extractSkills jobText).length := by
  have hnd : (matchedSkillsOf (extractSkills resumeText) (extractSkills jobText)).Nodup :=
    (List.filter_sublist _).nodup (extractSkills_nodup resumeText)
  exact (List.subperm_of_subset hnd (matched_mem_jobSkills resumeText jobText)).length_le

/-! Bounds on the scores. -/

theorem skillsScoreOf_bounds (resumeText jobText : List Char) :
    0 ≤ skillsScoreOf (matchedSkillsOf (extractSkills resumeText) (extractSkills jobText))
        (extractSkills jobText) ∧
      skillsScoreOf (matchedSkillsOf (extractSkills resumeText) (extractSkills jobText))
        (extractSkills jobText) ≤ 100 := by
  unfold skillsScoreOf
  by_cases hj : (extractSkills jobText).length > 0
  · rw [if_pos hj]
    have hle := matched_length_le resumeText jobText
    have hjpos : (0 : Rat) < ((extractSkills jobText).length : Rat) := by
      exact_mod_cast hj
    constructor
    · positivity
    · have hdiv : ((matchedSkillsOf (extractSkills resumeText) (extractSkills jobText)).length : Rat) /
          ((extractSkills jobText).length : Rat) ≤ 1 := by
        rw [div_le_one hjpos]
        exact_mod_cast hle
      nlinarith
  · rw [if_neg hj]
    norm_num

theorem experienceScoreOf_bounds {sim : Rat} (h0 : 0 ≤ sim) :
    0 ≤ experienceScoreOf sim ∧ experienceScoreOf sim ≤ 100 := by
  unfold experienceScoreOf
  constructor
  · apply le_min <;> nlinarith
  · exact min_le_right _ _

theorem educationScoreOf_bounds {sim : Rat} (h0 : 0 ≤ sim) (h1 : sim ≤ 1) :
    0 ≤ educationScoreOf sim ∧ educationScoreOf sim ≤ 100 := by
  unfold educationScoreOf
  constructor <;> nlinarith

theorem jsRound_bounds {q : Rat} (h0 : 0 ≤ q) (h1 : q ≤ 100) :
    0 ≤ jsRound q ∧ jsRound q ≤ 100 := by
  unfold jsRound
  constructor
  · exact Int.floor_nonneg.2 (by linarith)
  · have hfl : (⌊q + 1 / 2⌋ : Rat) ≤ q + 1 / 2 := Int.floor_le _
    have h2 : ((⌊q + 1 / 2⌋ : Int) : Rat) < ((101 : Int) : Rat) := by
      push_cast
      linarith
    exact Int.lt_add_one_iff.1 (by exact_mod_cast h2)

theorem overallScoreOf_bounds {a b c d : Rat} (ha : 0 ≤ a ∧ a ≤ 100)
    (hb : 0 ≤ b ∧ b ≤ 100) (hc : 0 ≤ c ∧ c ≤ 100) (hd : 0 ≤ d ∧ d ≤ 100) :
    0 ≤ overallScoreOf a b c d ∧ overallScoreOf a b c d ≤ 100 := by
  unfold overallScoreOf
  have hw0 : (0 : Rat) ≤ a * 0.4 + b * 0.3 + c * 0.2 + d * 0.1 := by nlinarith [ha.1, hb.1, hc.1, hd.1]
  have hw1 : a * 0.4 + b * 0.3 + c * 0.2 + d * 0.1 ≤ 100 := by nlinarith [ha.2, hb.2, hc.2, hd.2]
  exact jsRound_bounds hw0 hw1

/-! Structure of the orchestrator. -/

theorem analyzeResumeMatch_ok_iff {embed : List Char → Except String (List Rat)}
    {r j : List Char} {res : AnalysisResult} :
    analyzeResumeMatch embed r j = .ok res ↔ analyzeCore embed r j = .ok res := by
  unfold analyzeResumeMatch
  cases analyzeCore embed r j <;> simp

theorem analyzeCore_ok_elim {embed : List Char → Except String (List Rat)}
    {r j : List Char} {res : AnalysisResult} (h : analyzeCore embed r j = .ok res) :
    ∃ sim, res = analysisResultFor r j sim := by
  unfold analyzeCore at h
  cases hA : embed (preprocessText r) with
  | error e => rw [hA] at h; cases h
  | ok vA =>
    rw [hA] at h
    dsimp only at h
    cases hB : embed (preprocessText j) with
    | error e => rw [hB] at h; cases h
    | ok vB =>
      rw [hB] at h
      dsimp only at h
      cases hS : calculateCosineSimilarityRat vA vB with
      | error e => rw [hS] at h; cases h
      | ok sim =>
        rw [hS] at h
        exact ⟨sim, (Except.ok.inj h).symm⟩

theorem cosineRat_ok_of_length_eq {vA vB : List Rat} (h : vA.length = vB.length) :
    ∃ sim, calculateCosineSimilarityRat vA vB = .ok sim := by
  unfold calculateCosineSimilarityRat
  rw [if_neg (by simp [h])]
  by_cases hz : (decide (sumSquares vA = 0) || decide (sumSquares vB = 0)) = true
  · rw [if_pos hz]
    exact ⟨0, rfl⟩
  · rw [if_neg hz]
    exact ⟨_, rfl⟩

/-- C6: the normalizer is idempotent: normalizing an already normalized
text changes nothing. -/
theorem c6_preprocess_idempotent (t : List Char) :
    preprocessText (preprocessText t) = preprocessText t :=
  preprocess_fixpoint (preprocess_canonChars t) (preprocess_noDouble t)
    (preprocess_first t) (preprocess_last t)

/-- C5 (amended): the normalizer lower-cases, replaces every character
that is not a letter, digit, underscore or whitespace by a space,
collapses whitespace runs to a single space and trims: every output
character is a lowercase-stable word character (letter, digit or
underscore) or a plain space, no two spaces are adjacent, and the output
neither starts nor ends with a space. -/
theorem c5_preprocess_normal_form (t : List Char) :
    (preprocessText t).all canonChar = true ∧
    noDoubleSpace (preprocessText t) = true ∧
    firstNotSpace (preprocessText t) = true ∧
    lastNotSpace (preprocessText t) = true :=
  ⟨List.all_eq_true.2 (fun c hc => preprocess_canonChars t c hc),
   preprocess_noDouble t, preprocess_first t, preprocess_last t⟩

/-- C5 counterexample: the claim as stated fails on the underscore,
which the word class of the replacement regex retains even though it is
neither a letter, a digit nor whitespace. -/
theorem c5_counterexample :
    preprocessText ['_'] = ['_'] ∧
    '_'.isAlpha = false ∧ '_'.isDigit = false ∧ jsIsSpace '_' = false := by
  decide

theorem not_mem_extractSkills_of_nonCanon {sk : List Char} {c : Char}
    (hc : c ∈ sk.map jsToLower) (hbad : canonChar c = false) (t : List Char) :
    sk ∉ extractSkills t := by
  intro h
  have hmem := mem_of_hasSubstr (mem_extractSkills.1 h).2 hc
  have := preprocess_canonChars t c hmem
  rw [hbad] at this
  cases this

theorem extract_contains_eq_false {sk : List Char} {t : List Char}
    (h : sk ∉ extractSkills t) : (extractSkills t).contains sk = false := by
  cases hcon : (extractSkills t).contains sk
  · rfl
  · simp only [List.contains, List.elem_iff] at hcon
    exact absurd hcon h

/-- C9: the vocabulary entries c++, c# and scikit-learn can never be
extracted from any text: normalization replaces the plus, hash and
hyphen characters of the text by spaces, while the patterns retain
them. -/
theorem c9_unmatchable_vocabulary (t : List Char) :
    commonSkills.contains "c++".data = true ∧
    commonSkills.contains "c#".data = true ∧
    commonSkills.contains "scikit-learn".data = true ∧
    (extractSkills t).contains "c++".data = false ∧
    (extractSkills t).contains "c#".data = false ∧
    (extractSkills t).contains "scikit-learn".data = false := by
  refine ⟨by decide, by decide, by decide, ?_, ?_, ?_⟩
  · exact extract_contains_eq_false
      (not_mem_extractSkills_of_nonCanon (c := '+') (by decide) (by decide) t)
  · exact extract_contains_eq_false
      (not_mem_extractSkills_of_nonCanon (c := '#') (by decide) (by decide) t)
  · exact extract_contains_eq_false
      (not_mem_extractSkills_of_nonCanon (c := '-') (by decide) (by decide) t)

theorem matched_not_missing {rs js : List (List Char)} :
    ∀ s ∈ matchedSkillsOf rs js, s ∉ missingSkillsOf rs js := by
  intro s hs hm
  rcases mem_matchedSkillsOf.1 hs with ⟨hrs, _, _, _⟩
  rcases mem_missingSkillsOf.1 hm with ⟨_, hnone⟩
  exact hnone s hrs (hasSubstr_self _)

/-- C10: the matched-skill list and the untruncated missing-skill list
of the analysis are disjoint: a matched skill is a resume skill, which
contains itself, so it cannot pass the missing filter. -/
theorem c10_matched_missing_disjoint (resumeText jobText : List Char) :
    (matchedSkillsOf (extractSkills resumeText) (extractSkills jobText)).all
      (fun s => !((missingSkillsOf (extractSkills resumeText)
        (extractSkills jobText)).contains s)) = true := by
  refine List.all_eq_true.2 (fun s hs => ?_)
  have hnot := matched_not_missing s hs
  cases hcon : (missingSkillsOf (extractSkills resumeText)
      (extractSkills jobText)).contains s
  · rfl
  · simp only [List.contains, List.elem_iff] at hcon
    exact absurd hcon hnot

/-- C7: in every analysis result the missing-skill list is the first-10
truncation of the untruncated missing list, which is in vocabulary order
(a sublist of the vocabulary); the matched-skill list is returned
untruncated. -/
theorem c7_missing_truncated_matched_not (embed : List Char → Except String (List Rat))
    (resumeText jobText : List Char) (res : AnalysisResult)
    (h : analyzeResumeMatch embed resumeText jobText = .ok res) :
    res.missingSkills =
      (missingSkillsOf (extractSkills resumeText) (extractSkills jobText)).take 10 ∧
    res.missingSkills.length =
      min 10 (missingSkillsOf (extractSkills resumeText) (extractSkills jobText)).length ∧
    res.matchedSkills =
      matchedSkillsOf (extractSkills resumeText) (extractSkills jobText) ∧
    (missingSkillsOf (extractSkills resumeText) (extractSkills jobText)).Sublist
      commonSkills := by
  obtain ⟨sim, rfl⟩ := analyzeCore_ok_elim (analyzeResumeMatch_ok_iff.1 h)
  refine ⟨rfl, ?_, rfl, ?_⟩
  · simp [analysisResultFor, List.length_take]
  · exact (List.filter_sublist _).trans (extractSkills_sublist jobText)

section
attribute [local semireducible] Rat.add Rat.mul Rat.inv Rat.sub Rat.ofScientific

/-- C7 witness: a run with an empty resume and a 16-skill job text has
16 missing skills and returns exactly 10 of them. -/
theorem c7_witness :
    analyzeResumeMatch constUnitEmbed [] skillListJobText =
      .ok (analysisResultFor [] skillListJobText 1) ∧
    (missingSkillsOf (extractSkills ([] : List Char))
      (extractSkills skillListJobText)).length = 16 ∧
    (analysisResultFor [] skillListJobText 1).missingSkills.length = 10 := by
  have h : analyzeResumeMatch constUnitEmbed [] skillListJobText =
      .ok (analysisResultFor [] skillListJobText 1) := by decide
  have hc := c7_missing_truncated_matched_not constUnitEmbed [] skillListJobText _ h
  refine ⟨h, by decide, ?_⟩
  rw [hc.2.1]
  decide

end

section
attribute [local semireducible] Rat.add Rat.mul Rat.inv Rat.sub Rat.ofScientific

/-- C1 counterexample: the scenario resume text also matches the
single-letter vocabulary skill r (contained in the word Experienced), so
the extracted resume skills are not the claimed pair and the skills
score is 75, not 66.67. -/
theorem c1_counterexample :
    (extractSkills scenarioAResumeText).contains "r".data = true ∧
    (["python".data, "react".data] : List (List Char)).contains "r".data = false ∧
    skillsScoreOf
      (matchedSkillsOf (extractSkills scenarioAResumeText)
        (extractSkills scenarioAJobText))
      (extractSkills scenarioAJobText) = 75 ∧
    (75 : Rat) ≠ 6667 / 100 := by
  decide

/-- C1 (amended): for the scenario texts the extracted resume skills are
python, r, react and the job skills python, r, react, aws; all three
resume skills are matched, aws is missing, the skills score is 75, and
the first recommendation names the missing skill aws. This holds for
every embedding oracle that succeeds on both texts with equal-length
vectors. -/
theorem c1_scenarioA (embed : List Char → Except String (List Rat)) (vA vB : List Rat)
    (hA : embed (preprocessText scenarioAResumeText) = .ok vA)
    (hB : embed (preprocessText scenarioAJobText) = .ok vB)
    (hlen : vA.length = vB.length) :
    extractSkills scenarioAResumeText = ["python".data, "r".data, "react".data] ∧
    extractSkills scenarioAJobText =
      ["python".data, "r".data, "react".data, "aws".data] ∧
    (analyzeResumeMatch embed scenarioAResumeText scenarioAJobText).map
      (fun res => (res.matchedSkills, res.missingSkills, res.sectionScores.skills,
        res.recommendations.head?)) =
      .ok (["python".data, "r".data, "react".data], ["aws".data], 75,
        some "Add these missing skills to your resume: aws".data) := by
  obtain ⟨sim, hsim⟩ := cosineRat_ok_of_length_eq hlen
  have hcore : analyzeCore embed scenarioAResumeText scenarioAJobText =
      .ok (analysisResultFor scenarioAResumeText scenarioAJobText sim) := by
    unfold analyzeCore
    rw [hA]
    dsimp only
    rw [hB]
    dsimp only
    rw [hsim]
  have hmain : analyzeResumeMatch embed scenarioAResumeText scenarioAJobText =
      .ok (analysisResultFor scenarioAResumeText scenarioAJobText sim) := by
    unfold analyzeResumeMatch
    rw [hcore]
  have hrs : extractSkills scenarioAResumeText =
      ["python".data, "r".data, "react".data] := by decide
  have hjs : extractSkills scenarioAJobText =
      ["python".data, "r".data, "react".data, "aws".data] := by decide
  have hmatched : matchedSkillsOf (extractSkills scenarioAResumeText)
      (extractSkills scenarioAJobText) = ["python".data, "r".data, "react".data] := by
    decide
  have hmiss : missingSkillsOf (extractSkills scenarioAResumeText)
      (extractSkills scenarioAJobText) = ["aws".data] := by decide
  refine ⟨hrs, hjs, ?_⟩
  rw [hmain]
  simp only [Except.map, analysisResultFor, hmatched, hmiss, hjs]
  simp only [Except.ok.injEq, Prod.mk.injEq]
  refine ⟨by decide, by decide, by decide, ?_⟩
  simp only [recommendationsOf]
  rw [if_pos (by decide)]
  simp only [List.cons_append, List.head?_cons, Option.some.injEq]
  decide

/-- C1 witness: the amended scenario instantiated at the constant unit
embedding oracle. -/
theorem c1_witness :
    constUnitEmbed (preprocessText scenarioAResumeText) = .ok [1] ∧
    (analyzeResumeMatch constUnitEmbed scenarioAResumeText scenarioAJobText).map
      (fun res => (res.matchedSkills, res.missingSkills, res.sectionScores.skills,
        res.recommendations.head?)) =
      .ok (["python".data, "r".data, "react".data], ["aws".data], 75,
        some "Add these missing skills to your resume: aws".data) :=
  ⟨rfl, (c1_scenarioA constUnitEmbed [1] [1] rfl rfl rfl).2.2⟩

end

section
attribute [local semireducible] Rat.add Rat.mul Rat.inv Rat.sub Rat.ofScientific

/-- C2 counterexample: cosine similarity can return -1 (for opposite
one-entry vectors), at which the education score is -100, outside
0..100; and for skill lists not produced by extraction (java and
javascript against javascript alone) the matched list is longer than
the job list and the skills score is 200. -/
theorem c2_counterexample :
    calculateCosineSimilarity [(1 : Real)] [(-1 : Real)] = .ok (-1) ∧
    educationScoreOf (-1) = -100 ∧
    ¬ (0 ≤ educationScoreOf (-1)) ∧
    skillsScoreOf (matchedSkillsOf ["java".data, "javascript".data] ["javascript".data])
      ["javascript".data] = 200 := by
  refine ⟨?_, by decide, by decide, by decide⟩
  have h1 : sumSquares [(1 : Real)] = 1 := by norm_num [sumSquares]
  have h2 : sumSquares [(-1 : Real)] = 1 := by norm_num [sumSquares]
  have h3 : dotProductOf [(1 : Real)] [(-1 : Real)] = -1 := by norm_num [dotProductOf]
  unfold calculateCosineSimilarity
  rw [if_neg (by norm_num)]
  simp only [h1, h2, h3, Real.sqrt_one]
  rw [if_neg (by norm_num)]
  norm_num

end

/-- C2 (amended): for skill lists as the analysis extracts them from a
pair of texts and every similarity value in 0..1 (the range cosine
similarity attains on the L2-normalized embeddings the pipeline feeds
it), the four section scores, their rounded versions and the overall
score all lie in 0..100. -/
theorem c2_scores_bounded (resumeText jobText : List Char) (sim : Rat)
    (h0 : 0 ≤ sim) (h1 : sim ≤ 1) :
    (0 ≤ skillsScoreOf (matchedSkillsOf (extractSkills resumeText)
        (extractSkills jobText)) (extractSkills jobText) ∧
      skillsScoreOf (matchedSkillsOf (extractSkills resumeText)
        (extractSkills jobText)) (extractSkills jobText) ≤ 100) ∧
    (0 ≤ experienceScoreOf sim ∧ experienceScoreOf sim ≤ 100) ∧
    (0 ≤ educationScoreOf sim ∧ educationScoreOf sim ≤ 100) ∧
    (0 ≤ jsRound (skillsScoreOf (matchedSkillsOf (extractSkills resumeText)
        (extractSkills jobText)) (extractSkills jobText)) ∧
      jsRound (skillsScoreOf (matchedSkillsOf (extractSkills resumeText)
        (extractSkills jobText)) (extractSkills jobText)) ≤ 100) ∧
    (0 ≤ jsRound (experienceScoreOf sim) ∧ jsRound (experienceScoreOf sim) ≤ 100) ∧
    (0 ≤ jsRound (educationScoreOf sim) ∧ jsRound (educationScoreOf sim) ≤ 100) ∧
    (0 ≤ overallScoreOf
        (skillsScoreOf (matchedSkillsOf (extractSkills resumeText)
          (extractSkills jobText)) (extractSkills jobText))
        (experienceScoreOf sim) (educationScoreOf sim)
        (skillsScoreOf (matchedSkillsOf (extractSkills resumeText)
          (extractSkills jobText)) (extractSkills jobText)) ∧
      overallScoreOf
        (skillsScoreOf (matchedSkillsOf (extractSkills resumeText)
          (extractSkills jobText)) (extractSkills jobText))
        (experienceScoreOf sim) (educationScoreOf sim)
        (skillsScoreOf (matchedSkillsOf (extractSkills resumeText)
          (extractSkills jobText)) (extractSkills jobText)) ≤ 100) := by
  have hsk := skillsScoreOf_bounds resumeText jobText
  have hex := experienceScoreOf_bounds h0
  have hed := educationScoreOf_bounds h0 h1
  exact ⟨hsk, hex, hed, jsRound_bounds hsk.1 hsk.2, jsRound_bounds hex.1 hex.2,
    jsRound_bounds hed.1 hed.2, overallScoreOf_bounds hsk hex hed hsk⟩

/-- C2 witness: the bounds instantiated at the scenario texts and
similarity one half. -/
theorem c2_witness :
    (0 : Rat) ≤ 1 / 2 ∧ (1 : Rat) / 2 ≤ 1 ∧
    (0 ≤ experienceScoreOf (1 / 2) ∧ experienceScoreOf (1 / 2) ≤ 100) ∧
    (0 ≤ educationScoreOf (1 / 2) ∧ educationScoreOf (1 / 2) ≤ 100) :=
  ⟨by norm_num, by norm_num,
    (c2_scores_bounded scenarioAResumeText scenarioAJobText (1 / 2)
      (by norm_num) (by norm_num)).2.1,
    (c2_scores_bounded scenarioAResumeText scenarioAJobText (1 / 2)
      (by norm_num) (by norm_num)).2.2.1⟩

theorem cosineRat_error_of_length_ne {vA vB : List Rat}
    (h : vA.length ≠ vB.length) :
    calculateCosineSimilarityRat vA vB = .error "Vectors must have the same length" := by
  unfold calculateCosineSimilarityRat
  rw [if_pos h]

/-- C3: whenever a step of the analysis fails (an embedding call, or the
similarity computation on mismatched vectors), analyzeResumeMatch fails
with the single analysis-failed error, the first underlying cause is
preserved in the diagnostic log of the catch clause, and no result is
returned; when it succeeds nothing is logged. -/
theorem c3_failure_all_or_nothing (embed : List Char → Except String (List Rat))
    (r j : List Char) (e : String) (vA vB : List Rat) :
    (embed (preprocessText r) = .error e →
      analyzeResumeMatch embed r j = .error "Analysis failed. Please try again." ∧
      analysisLog embed r j = ["Error during analysis: " ++ e]) ∧
    (embed (preprocessText r) = .ok vA → embed (preprocessText j) = .error e →
      analyzeResumeMatch embed r j = .error "Analysis failed. Please try again." ∧
      analysisLog embed r j = ["Error during analysis: " ++ e]) ∧
    (embed (preprocessText r) = .ok vA → embed (preprocessText j) = .ok vB →
      vA.length ≠ vB.length →
      analyzeResumeMatch embed r j = .error "Analysis failed. Please try again." ∧
      analysisLog embed r j =
        ["Error during analysis: " ++ "Vectors must have the same length"]) ∧
    (∀ res, analyzeResumeMatch embed r j = .ok res → analysisLog embed r j = []) := by
  refine ⟨?_, ?_, ?_, ?_⟩
  · intro hA
    have hcore : analyzeCore embed r j = .error e := by
      unfold analyzeCore
      rw [hA]
    constructor
    · unfold analyzeResumeMatch
      rw [hcore]
    · unfold analysisLog
      rw [hcore]
  · intro hA hB
    have hcore : analyzeCore embed r j = .error e := by
      unfold analyzeCore
      rw [hA]
      dsimp only
      rw [hB]
    constructor
    · unfold analyzeResumeMatch
      rw [hcore]
    · unfold analysisLog
      rw [hcore]
  · intro hA hB hlen
    have hcore : analyzeCore embed r j = .error "Vectors must have the same length" := by
      unfold analyzeCore
      rw [hA]
      dsimp only
      rw [hB]
      dsimp only
      rw [cosineRat_error_of_length_ne hlen]
    constructor
    · unfold analyzeResumeMatch
      rw [hcore]
    · unfold analysisLog
      rw [hcore]
  · intro res hres
    have hcore := analyzeResumeMatch_ok_iff.1 hres
    unfold analysisLog
    rw [hcore]

/-- C3 witness: the failure path instantiated at an oracle whose model
is unavailable. -/
theorem c3_witness :
    analyzeResumeMatch (fun _ => .error "Text embedding model not available") [] [] =
      .error "Analysis failed. Please try again." ∧
    analysisLog (fun _ => .error "Text embedding model not available") [] [] =
      ["Error during analysis: " ++ "Text embedding model not available"] :=
  (c3_failure_all_or_nothing (fun _ => .error "Text embedding model not available")
    [] [] "Text embedding model not available" [] []).1 rfl

/-- C4 counterexample: from the uninitialized backend, a second embed
call arriving while the first load is in flight starts no second load,
yet it does not share the initialization: it fails with the
model-not-available error even though the load then completes and the
first caller finds the model ready. -/
theorem c4_counterexample :
    (twoCallerRun (some 0)).1.loadsStarted = 1 ∧
    (twoCallerRun (some 0)).2.2 = .error "Text embedding model not available" ∧
    (twoCallerRun (some 0)).2.1 = .ok () ∧
    (twoCallerRun (some 0)).1.textEmbeddingModel = some 0 := by
  decide

/-- C4 (amended): a second embed call during Loading triggers no second
load (initializeModels returns at once), but the caller does not await
the in-flight initialization: whatever the load outcome, the overlapped
run starts exactly one load and the second caller fails with the
model-not-available error instead of observing the load result. -/
theorem c4_no_second_load_no_sharing (outcome : Option Nat) :
    (initializeModelsPhase1
      { textEmbeddingModel := none, isModelLoading := true, loadsStarted := 1 }).2
        = false ∧
    (initializeModelsPhase1
      { textEmbeddingModel := none, isModelLoading := true, loadsStarted := 1 }).1
        = { textEmbeddingModel := none, isModelLoading := true, loadsStarted := 1 } ∧
    (twoCallerRun outcome).1.loadsStarted = 1 ∧
    (twoCallerRun outcome).2.2 = .error "Text embedding model not available" := by
  exact ⟨rfl, rfl, rfl, rfl⟩

theorem sumSquares_nonneg (v : List Real) : 0 ≤ sumSquares v := by
  induction v with
  | nil => simp [sumSquares]
  | cons a t ih =>
    have ha : 0 ≤ a * a := mul_self_nonneg a
    simp only [sumSquares, List.map_cons, List.sum_cons] at ih ⊢
    linarith

theorem sumSquares_eq_zero_iff (v : List Real) :
    sumSquares v = 0 ↔ ∀ x ∈ v, x = 0 := by
  induction v with
  | nil => simp [sumSquares]
  | cons a t ih =>
    have ha : 0 ≤ a * a := mul_self_nonneg a
    have ht := sumSquares_nonneg t
    simp only [sumSquares, List.map_cons, List.sum_cons] at ih ht ⊢
    rw [add_eq_zero_iff_of_nonneg ha ht, mul_self_eq_zero]
    simp only [List.mem_cons, ih]
    constructor
    · rintro ⟨rfl, h2⟩ x (rfl | hx)
      · rfl
      · exact h2 x hx
    · intro h
      exact ⟨h a (Or.inl rfl), fun x hx => h x (Or.inr hx)⟩

/-- C8: the similarity engine fails exactly on vectors of different
lengths; on equal lengths it never fails, returns 0 when either norm is
exactly zero (equivalently, when either vector is all zeros), and
otherwise returns the dot product over the product of the two norms. -/
theorem c8_cosine_contract (a b : List Real) :
    (a.length ≠ b.length →
      calculateCosineSimilarity a b = .error "Vectors must have the same length") ∧
    (a.length = b.length → ∀ e, calculateCosineSimilarity a b ≠ .error e) ∧
    (a.length = b.length →
      Real.sqrt (sumSquares a) = 0 ∨ Real.sqrt (sumSquares b) = 0 →
      calculateCosineSimilarity a b = .ok 0) ∧
    (a.length = b.length →
      Real.sqrt (sumSquares a) ≠ 0 → Real.sqrt (sumSquares b) ≠ 0 →
      calculateCosineSimilarity a b =
        .ok (dotProductOf a b /
          (Real.sqrt (sumSquares a) * Real.sqrt (sumSquares b)))) ∧
    (Real.sqrt (sumSquares a) = 0 ↔ ∀ x ∈ a, x = 0) := by
  refine ⟨?_, ?_, ?_, ?_, ?_⟩
  · intro hne
    unfold calculateCosineSimilarity
    rw [if_pos hne]
  · intro heq e
    unfold calculateCosineSimilarity
    rw [if_neg (by simp [heq])]
    by_cases hz : Real.sqrt (sumSquares a) = 0 ∨ Real.sqrt (sumSquares b) = 0
    · rw [if_pos hz]
      simp
    · rw [if_neg hz]
      simp
  · intro heq hz
    unfold calculateCosineSimilarity
    rw [if_neg (by simp [heq]), if_pos hz]
  · intro heq hza hzb
    unfold calculateCosineSimilarity
    rw [if_neg (by simp [heq]), if_neg (by tauto)]
  · rw [Real.sqrt_eq_zero (sumSquares_nonneg a)]
    exact sumSquares_eq_zero_iff a

/-- C8 witness: a length mismatch fails, the zero vector yields
similarity 0 without failing, and the unit vector against itself yields
similarity 1. -/
theorem c8_witness :
    calculateCosineSimilarity [(1 : Real)] [1, 2] =
      .error "Vectors must have the same length" ∧
    calculateCosineSimilarity [(0 : Real)] [0] = .ok 0 ∧
    calculateCosineSimilarity [(1 : Real)] [1] = .ok 1 := by
  refine ⟨(c8_cosine_contract [(1 : Real)] [1, 2]).1 (by norm_num), ?_, ?_⟩
  · refine (c8_cosine_contract [(0 : Real)] [0]).2.2.1 rfl (Or.inl ?_)
    have : sumSquares [(0 : Real)] = 0 := by norm_num [sumSquares]
    rw [this, Real.sqrt_zero]
  · have h1 : sumSquares [(1 : Real)] = 1 := by norm_num [sumSquares]
    have hne : Real.sqrt (sumSquares [(1 : Real)]) ≠ 0 := by
      rw [h1, Real.sqrt_one]
      norm_num
    have h := (c8_cosine_contract [(1 : Real)] [1]).2.2.2.1 rfl hne hne
    rw [h, h1, Real.sqrt_one]
    have h3 : dotProductOf [(1 : Real)] [1] = 1 := by norm_num [dotProductOf]
    rw [h3]
    norm_num
